import Mathlib

/-!
Shallow embedding of the knight-move grid game in `src/main.py`
(class `GridGame`): the game state, the move validator
`is_valid_move`, the reachability scan `has_valid_moves`, the
Warnsdorff tour estimator `calculate_max_moves`, the reset operation
`reset_game`, and the mouse-click handler of `run` (modelled as
`applyMove`).  Python exceptions (IndexError) are modelled by
`Option`: `none` is an uncaught exception; Python's negative list
indexing is modelled faithfully by `pyIdx`.
-/

namespace GridGame

/-- Python list indexing `l[i]` for an `int` index: non-negative
indices are positional, negative indices in `[-len, 0)` wrap to
`len + i`, anything else raises IndexError (`none`). -/
def pyIdx {α : Type} (l : List α) (i : Int) : Option α :=
  if 0 ≤ i then l.get? i.toNat
  else if -(l.length : Int) ≤ i then l.get? (l.length - (-i).toNat)
  else none

/-- The game state held on the `GridGame` object: grid dimensions
(`grid_size_x` columns, `grid_size_y` rows), the grid of visit
numbers (0 = unvisited), the move counter, the last clicked cell and
the game-over flag, plus the cached Warnsdorff estimate. -/
structure GameState where
  grid_size_x : Nat
  grid_size_y : Nat
  grid : List (List Nat)
  counter : Nat
  last_clicked : Option (Int × Int)
  game_over : Bool
  max_possible_moves : Nat
deriving DecidableEq, Repr

/-- The knight-displacement test shared by `is_valid_move`,
`has_valid_moves` and the highlight code:
`(row_diff == 2 and col_diff == 1) or (row_diff == 1 and col_diff == 2)`. -/
def knightDiff (row_diff col_diff : Nat) : Bool :=
  (row_diff == 2 && col_diff == 1) || (row_diff == 1 && col_diff == 2)

/-- `GridGame.is_valid_move` (src/main.py:93-113).  With no
`last_clicked` it returns `True` unconditionally; otherwise it tests
the knight displacement and, only when that holds (Python `and`
short-circuits), reads `self.grid[row][col]`, which may wrap on
negative indices or raise IndexError. -/
def is_valid_move (s : GameState) (row col : Int) : Option Bool :=
  match s.last_clicked with
  | none => some true
  | some (last_row, last_col) =>
    let row_diff := (row - last_row).natAbs
    let col_diff := (col - last_col).natAbs
    if knightDiff row_diff col_diff then
      match pyIdx s.grid row with
      | none => none
      | some r =>
        match pyIdx r col with
        | none => none
        | some v => some (v == 0)
    else some false

/-- Reading `self.grid[i][j]` at indices the code has already
bounds-checked (loop indices of `has_valid_moves` and `run`). -/
def gridCell (g : List (List Nat)) (i j : Nat) : Nat :=
  (g.getD i []).getD j 0

/-- `GridGame.has_valid_moves` (src/main.py:115-134): scans every
grid cell for an unvisited cell a knight displacement away from
`last_clicked`; `True` when `last_clicked` is `None`. -/
def has_valid_moves (s : GameState) : Bool :=
  match s.last_clicked with
  | none => true
  | some (last_row, last_col) =>
    (List.range s.grid_size_y).any fun i =>
      (List.range s.grid_size_x).any fun j =>
        gridCell s.grid i j == 0 &&
          knightDiff ((i : Int) - last_row).natAbs ((j : Int) - last_col).natAbs

/-- The write `self.grid[row][col] = self.counter` at in-bounds
indices. -/
def setCell (g : List (List Nat)) (i j : Nat) (v : Nat) : List (List Nat) :=
  g.set i ((g.getD i []).set j v)

/-- The three assignments of an accepted click
(src/main.py:163-165): `self.grid[row][col] = self.counter`,
`self.counter += 1`, `self.last_clicked = (row, col)`. -/
def placeMove (s : GameState) (row col : Int) : GameState :=
  { s with
    grid := setCell s.grid row.toNat col.toNat s.counter,
    counter := s.counter + 1,
    last_clicked := some (row, col) }

/-- The MOUSEBUTTONDOWN branch of `GridGame.run`
(src/main.py:156-171): ignored when `game_over`; otherwise the click
is accepted iff it is in bounds and `is_valid_move` holds, in which
case the cell is numbered, the counter incremented, `last_clicked`
updated, and `game_over` set when `has_valid_moves` fails on the
updated state.  Returns the new state and whether the move was
accepted; `none` models an uncaught exception from `is_valid_move`. -/
def applyMove (s : GameState) (row col : Int) : Option (GameState × Bool) :=
  if s.game_over then some (s, false)
  else if 0 ≤ row ∧ row < (s.grid_size_y : Int) ∧ 0 ≤ col ∧ col < (s.grid_size_x : Int) then
    match is_valid_move s row col with
    | none => none
    | some false => some (s, false)
    | some true =>
      if has_valid_moves (placeMove s row col) then some (placeMove s row col, true)
      else some ({ placeMove s row col with game_over := true }, true)
  else some (s, false)

/-- The inner `get_valid_neighbors` of `calculate_max_moves`
(src/main.py:42-50): the eight knight offsets in source order,
filtered to in-bounds unvisited cells. -/
def get_valid_neighbors (gy gx : Nat) (pos : Int × Int) (visited : List (Int × Int)) :
    List (Int × Int) :=
  let moves : List (Int × Int) :=
    [(pos.1 + 2, pos.2 + 1), (pos.1 + 2, pos.2 - 1),
     (pos.1 - 2, pos.2 + 1), (pos.1 - 2, pos.2 - 1),
     (pos.1 + 1, pos.2 + 2), (pos.1 + 1, pos.2 - 2),
     (pos.1 - 1, pos.2 + 2), (pos.1 - 1, pos.2 - 2)]
  moves.filter fun p =>
    decide (0 ≤ p.1 ∧ p.1 < (gy : Int) ∧ 0 ≤ p.2 ∧ p.2 < (gx : Int) ∧ p ∉ visited)

/-- Python's `min(xs, key=f)` over a nonempty list: the first element
attaining the minimal key. -/
def minByKey (f : Int × Int → Nat) : Int × Int → List (Int × Int) → Int × Int
  | best, [] => best
  | best, x :: xs => minByKey f (if f x < f best then x else best) xs

/-- The `while True` loop of `warnsdorff_tour` (src/main.py:56-67),
fuelled: stop when the current cell has no valid neighbors,
otherwise move to the neighbor with the fewest onward moves.
A fuel of `gy * gx` is enough to run the source loop to its break
(each iteration adds a fresh in-bounds cell to `visited`):
see `warnsdorffLoop_fuel_irrelevant`. -/
def warnsdorffLoop (gy gx : Nat) : Nat → List (Int × Int) → Int × Int → Nat
  | 0, visited, _ => visited.length
  | fuel + 1, visited, pos =>
    match get_valid_neighbors gy gx pos visited with
    | [] => visited.length
    | n :: ns =>
      let next := minByKey (fun x => (get_valid_neighbors gy gx x visited).length) n ns
      warnsdorffLoop gy gx fuel (next :: visited) next

/-- The inner `warnsdorff_tour` of `calculate_max_moves`
(src/main.py:52-67): greedy tour from `start_pos`, returning the
number of visited cells. -/
def warnsdorff_tour (gy gx : Nat) (start_pos : Int × Int) : Nat :=
  warnsdorffLoop gy gx (gy * gx) [start_pos] start_pos

/-- Every starting cell tried by the double loop of
`calculate_max_moves` (src/main.py:71-72), in iteration order. -/
def tour_starts (gy gx : Nat) : List (Int × Int) :=
  (List.range gy).flatMap fun i =>
    (List.range gx).map fun j : Nat => ((i : Int), (j : Int))

/-- `GridGame.calculate_max_moves` (src/main.py:36-77): maximum of
`warnsdorff_tour` over every starting cell, accumulated with
`max(max_moves, moves)` from `0`. -/
def calculate_max_moves (gy gx : Nat) : Nat :=
  ((tour_starts gy gx).map (warnsdorff_tour gy gx)).foldl max 0

/-- `GridGame.reset_game` (src/main.py:24-34): fresh all-zero grid,
counter 1, no last click, not game over, and the recomputed
Warnsdorff estimate. -/
def reset_game (gy gx : Nat) : GameState :=
  { grid_size_x := gx
    grid_size_y := gy
    grid := List.replicate gy (List.replicate gx 0)
    counter := 1
    last_clicked := none
    game_over := false
    max_possible_moves := calculate_max_moves gy gx }

/-- The grid rows match the stored dimensions, as is true of every
grid the Python code ever builds. -/
def WFGrid (s : GameState) : Prop :=
  s.grid.length = s.grid_size_y ∧ ∀ r ∈ s.grid, r.length = s.grid_size_x

instance (s : GameState) : Decidable (WFGrid s) :=
  inferInstanceAs (Decidable (s.grid.length = s.grid_size_y ∧
    ∀ r ∈ s.grid, r.length = s.grid_size_x))

/-- States reachable from a reset by a sequence of click events,
indexed by the number of accepted moves. -/
inductive Reaches : Nat → GameState → Prop
  | init (gy gx : Nat) (hy : 1 ≤ gy) (hx : 1 ≤ gx) : Reaches 0 (reset_game gy gx)
  | accept {k : Nat} {s s_next : GameState} (row col : Int) (h : Reaches k s)
      (hm : applyMove s row col = some (s_next, true)) : Reaches (k + 1) s_next
  | reject {k : Nat} {s s_next : GameState} (row col : Int) (h : Reaches k s)
      (hm : applyMove s row col = some (s_next, false)) : Reaches k s_next

/-! ### Basic lemmas about the embedded operations -/

lemma pyIdx_inbounds {α : Type} (l : List α) (i : Int) (d : α)
    (h1 : 0 ≤ i) (h2 : i < (l.length : Int)) :
    pyIdx l i = some (l.getD i.toNat d) := by
  have hn : i.toNat < l.length := by omega
  simp [pyIdx, h1, List.get?_eq_getElem?, List.getElem?_eq_getElem hn,
    List.getD_eq_getElem l d hn]

lemma grid_row_length {s : GameState} (hwf : WFGrid s) {i : Nat}
    (hi : i < s.grid.length) : (s.grid.getD i []).length = s.grid_size_x := by
  rw [List.getD_eq_getElem s.grid [] hi]
  exact hwf.2 _ (List.getElem_mem hi)

/-- In-bounds non-first-move behaviour of `is_valid_move`: exactly the
knight test conjoined with emptiness of the target cell. -/
lemma is_valid_move_inbounds (s : GameState) (row col lr lc : Int)
    (hl : s.last_clicked = some (lr, lc)) (hwf : WFGrid s)
    (h1 : 0 ≤ row) (h2 : row < (s.grid_size_y : Int))
    (h3 : 0 ≤ col) (h4 : col < (s.grid_size_x : Int)) :
    is_valid_move s row col =
      some (knightDiff (row - lr).natAbs (col - lc).natAbs &&
        (gridCell s.grid row.toNat col.toNat == 0)) := by
  have hlen : (s.grid.length : Int) = (s.grid_size_y : Int) := by
    exact_mod_cast congrArg Nat.cast hwf.1
  have hr2 : row < (s.grid.length : Int) := by omega
  have hrow : pyIdx s.grid row = some (s.grid.getD row.toNat []) :=
    pyIdx_inbounds s.grid row [] h1 hr2
  have hrn : row.toNat < s.grid.length := by omega
  have hcl : ((s.grid.getD row.toNat []).length : Int) = (s.grid_size_x : Int) := by
    exact_mod_cast congrArg Nat.cast (grid_row_length hwf hrn)
  have hc2 : col < ((s.grid.getD row.toNat []).length : Int) := by omega
  have hcol : pyIdx (s.grid.getD row.toNat []) col =
      some ((s.grid.getD row.toNat []).getD col.toNat 0) :=
    pyIdx_inbounds _ col 0 h3 hc2
  simp only [is_valid_move, hl]
  cases hk : knightDiff (row - lr).natAbs (col - lc).natAbs
  · simp only [Bool.false_eq_true, if_false, Bool.false_and]
  · simp only [if_true, hrow, hcol, Bool.true_and, gridCell]

lemma has_valid_moves_set_game_over (s : GameState) (b : Bool) :
    has_valid_moves { s with game_over := b } = has_valid_moves s := by
  cases s
  rfl

/-- Exhaustive case analysis of the click handler. -/
lemma applyMove_cases (s : GameState) (row col : Int) :
    (s.game_over = true ∧ applyMove s row col = some (s, false)) ∨
    (s.game_over = false ∧
      ¬ (0 ≤ row ∧ row < (s.grid_size_y : Int) ∧ 0 ≤ col ∧ col < (s.grid_size_x : Int)) ∧
      applyMove s row col = some (s, false)) ∨
    (s.game_over = false ∧
      (0 ≤ row ∧ row < (s.grid_size_y : Int) ∧ 0 ≤ col ∧ col < (s.grid_size_x : Int)) ∧
      is_valid_move s row col = none ∧ applyMove s row col = none) ∨
    (s.game_over = false ∧
      (0 ≤ row ∧ row < (s.grid_size_y : Int) ∧ 0 ≤ col ∧ col < (s.grid_size_x : Int)) ∧
      is_valid_move s row col = some false ∧ applyMove s row col = some (s, false)) ∨
    (s.game_over = false ∧
      (0 ≤ row ∧ row < (s.grid_size_y : Int) ∧ 0 ≤ col ∧ col < (s.grid_size_x : Int)) ∧
      is_valid_move s row col = some true ∧
      applyMove s row col =
        some (if has_valid_moves (placeMove s row col) then placeMove s row col
              else { placeMove s row col with game_over := true }, true)) := by
  by_cases hg : s.game_over
  · exact Or.inl ⟨hg, by simp [applyMove, hg]⟩
  · rw [Bool.not_eq_true] at hg
    by_cases hb : 0 ≤ row ∧ row < (s.grid_size_y : Int) ∧ 0 ≤ col ∧ col < (s.grid_size_x : Int)
    · cases hv : is_valid_move s row col with
      | none => exact Or.inr (Or.inr (Or.inl ⟨hg, hb, rfl, by simp [applyMove, hg, hb, hv]⟩))
      | some b =>
        cases b
        · exact Or.inr (Or.inr (Or.inr (Or.inl ⟨hg, hb, rfl, by simp [applyMove, hg, hb, hv]⟩)))
        · refine Or.inr (Or.inr (Or.inr (Or.inr ⟨hg, hb, rfl, ?_⟩)))
          by_cases hm : has_valid_moves (placeMove s row col) <;>
            simp [applyMove, hg, hb, hv, hm]
    · exact Or.inr (Or.inl ⟨hg, hb, by simp [applyMove, hg, hb]⟩)

lemma applyMove_rejected {s s_next : GameState} {row col : Int}
    (h : applyMove s row col = some (s_next, false)) : s_next = s := by
  rcases applyMove_cases s row col with ⟨_, hEq⟩ | ⟨_, _, hEq⟩ | ⟨_, _, _, hEq⟩ |
    ⟨_, _, _, hEq⟩ | ⟨_, _, _, hEq⟩
  · rw [hEq] at h
    exact (((Prod.mk.injEq _ _ _ _).mp (Option.some.inj h)).1).symm
  · rw [hEq] at h
    exact (((Prod.mk.injEq _ _ _ _).mp (Option.some.inj h)).1).symm
  · rw [hEq] at h
    exact absurd h (by simp)
  · rw [hEq] at h
    exact (((Prod.mk.injEq _ _ _ _).mp (Option.some.inj h)).1).symm
  · rw [hEq] at h
    exact absurd (((Prod.mk.injEq _ _ _ _).mp (Option.some.inj h)).2) (by simp)

lemma applyMove_accepted {s s_next : GameState} {row col : Int}
    (h : applyMove s row col = some (s_next, true)) :
    s.game_over = false ∧
    (0 ≤ row ∧ row < (s.grid_size_y : Int) ∧ 0 ≤ col ∧ col < (s.grid_size_x : Int)) ∧
    is_valid_move s row col = some true ∧
    s_next = (if has_valid_moves (placeMove s row col) then placeMove s row col
              else { placeMove s row col with game_over := true }) := by
  rcases applyMove_cases s row col with ⟨_, hEq⟩ | ⟨_, _, hEq⟩ | ⟨_, _, _, hEq⟩ |
    ⟨_, _, _, hEq⟩ | ⟨hg, hb, hv, hEq⟩
  · rw [hEq] at h
    exact absurd (((Prod.mk.injEq _ _ _ _).mp (Option.some.inj h)).2) (by simp)
  · rw [hEq] at h
    exact absurd (((Prod.mk.injEq _ _ _ _).mp (Option.some.inj h)).2) (by simp)
  · rw [hEq] at h
    exact absurd h (by simp)
  · rw [hEq] at h
    exact absurd (((Prod.mk.injEq _ _ _ _).mp (Option.some.inj h)).2) (by simp)
  · rw [hEq] at h
    exact ⟨hg, hb, hv, (((Prod.mk.injEq _ _ _ _).mp (Option.some.inj h)).1).symm⟩

/-- Field values of the state after an accepted click. -/
lemma applyMove_accepted_fields {s s_next : GameState} {row col : Int}
    (h : applyMove s row col = some (s_next, true)) :
    s_next.grid = setCell s.grid row.toNat col.toNat s.counter ∧
    s_next.counter = s.counter + 1 ∧
    s_next.last_clicked = some (row, col) ∧
    s_next.grid_size_x = s.grid_size_x ∧
    s_next.grid_size_y = s.grid_size_y ∧
    s_next.max_possible_moves = s.max_possible_moves ∧
    s_next.game_over = !has_valid_moves s_next := by
  obtain ⟨hg, _, _, hs⟩ := applyMove_accepted h
  by_cases hm : has_valid_moves (placeMove s row col)
  · rw [hs, if_pos hm]
    refine ⟨rfl, rfl, rfl, rfl, rfl, rfl, ?_⟩
    rw [hm]
    simpa [placeMove] using hg
  · rw [hs, if_neg hm]
    refine ⟨rfl, rfl, rfl, rfl, rfl, rfl, ?_⟩
    rw [has_valid_moves_set_game_over, Bool.not_eq_true] at *
    simp [hm]

/-! ### Concrete states used by counterexamples and witnesses -/

/-- A fresh default 10x5 game, as produced by `reset_game` with the
source's dimensions (the Warnsdorff estimate evaluates to 50). -/
def freshDefault : GameState :=
  { grid_size_x := 5, grid_size_y := 10,
    grid := List.replicate 10 (List.replicate 5 0),
    counter := 1, last_clicked := none, game_over := false,
    max_possible_moves := 50 }

/-- The default game after a single first click on cell (0,0). -/
def afterFirstClick : GameState :=
  { freshDefault with
    grid := setCell (List.replicate 10 (List.replicate 5 0)) 0 0 1,
    counter := 2, last_clicked := some (0, 0) }

/-- The default game after a single first click on cell (9,0). -/
def afterCornerClick : GameState :=
  { freshDefault with
    grid := setCell (List.replicate 10 (List.replicate 5 0)) 9 0 1,
    counter := 2, last_clicked := some (9, 0) }

/-- A finished 1x1 game: the single cell was clicked, no moves remain. -/
def finished1x1 : GameState :=
  { grid_size_x := 1, grid_size_y := 1, grid := [[1]], counter := 2,
    last_clicked := some (0, 0), game_over := true, max_possible_moves := 1 }

/-! ### C2 -/

/-- C2 (amended): when `last_clicked` is `None`, `is_valid_move`
returns `True` for every position, in bounds or not, occupied or not;
the bounds check for a first click is performed by the caller in
`run`, not by `is_valid_move`. -/
theorem first_move_validator_unconditional (s : GameState) (row col : Int)
    (h : s.last_clicked = none) : is_valid_move s row col = some true := by
  simp [is_valid_move, h]

/-- C2 counterexample: on a fresh default grid the out-of-bounds
position (100,100) is reported valid by `is_valid_move`, where the
claim requires false for out-of-bounds cells. -/
theorem first_move_validator_oob_cx :
    freshDefault.last_clicked = none ∧
    ¬ (100 < freshDefault.grid_size_y) ∧
    is_valid_move freshDefault 100 100 = some true :=
  ⟨rfl, by decide, rfl⟩

/-- Witness for the amended C2 theorem at a concrete state. -/
theorem first_move_validator_unconditional_witness :
    is_valid_move freshDefault (-3) 7 = some true :=
  first_move_validator_unconditional freshDefault (-3) 7 rfl

/-! ### C1 -/

/-- C1 (amended): for a non-first move at an in-bounds position,
`is_valid_move` returns true iff the target cell is unvisited and the
absolute displacement from the last click is (2,1) or (1,2), and
false for every other in-bounds combination.  `is_valid_move` itself
never checks bounds (the click handler does before calling it), so
the in-bounds hypothesis cannot be dropped: see the counterexample. -/
theorem nonfirst_move_validator_iff (s : GameState) (row col lr lc : Int)
    (hl : s.last_clicked = some (lr, lc)) (hwf : WFGrid s)
    (h1 : 0 ≤ row) (h2 : row < (s.grid_size_y : Int))
    (h3 : 0 ≤ col) (h4 : col < (s.grid_size_x : Int)) :
    (is_valid_move s row col = some true ↔
      (gridCell s.grid row.toNat col.toNat = 0 ∧
        (((row - lr).natAbs = 2 ∧ (col - lc).natAbs = 1) ∨
         ((row - lr).natAbs = 1 ∧ (col - lc).natAbs = 2)))) ∧
    (is_valid_move s row col = some false ↔
      ¬ (gridCell s.grid row.toNat col.toNat = 0 ∧
        (((row - lr).natAbs = 2 ∧ (col - lc).natAbs = 1) ∨
         ((row - lr).natAbs = 1 ∧ (col - lc).natAbs = 2)))) := by
  rw [is_valid_move_inbounds s row col lr lc hl hwf h1 h2 h3 h4]
  have hiff : (knightDiff (row - lr).natAbs (col - lc).natAbs &&
      (gridCell s.grid row.toNat col.toNat == 0)) = true ↔
      (gridCell s.grid row.toNat col.toNat = 0 ∧
        (((row - lr).natAbs = 2 ∧ (col - lc).natAbs = 1) ∨
         ((row - lr).natAbs = 1 ∧ (col - lc).natAbs = 2))) := by
    simp only [Bool.and_eq_true, Bool.or_eq_true, beq_iff_eq, knightDiff]
    tauto
  constructor
  · simp only [Option.some.injEq]
    exact hiff
  · simp only [Option.some.injEq, Bool.eq_false_iff, ne_eq]
    exact not_congr hiff

/-- C1 counterexample: from last click (0,0), the out-of-bounds
position (-2,1) is at knight displacement, and `is_valid_move`
accepts it (Python resolves row index -2 to row 8), where the claim
requires false for out-of-bounds targets. -/
theorem nonfirst_move_validator_oob_cx :
    afterFirstClick.last_clicked = some (0, 0) ∧
    ¬ (0 ≤ (-2 : Int)) ∧
    is_valid_move afterFirstClick (-2) 1 = some true :=
  ⟨rfl, by decide, by decide⟩

/-- Witness for the amended C1 theorem at a concrete state. -/
theorem nonfirst_move_validator_iff_witness :
    is_valid_move afterFirstClick 2 1 = some true :=
  (nonfirst_move_validator_iff afterFirstClick 2 1 0 0 rfl (by decide)
    (by decide) (by decide) (by decide) (by decide)).1.mpr (by decide)

/-! ### C3 -/

/-- C3: a rejected click (terminal state, out-of-bounds target, or
validator false) leaves the grid, counter, last-clicked position and
terminal flag exactly unchanged, and a terminal state rejects every
click. -/
theorem rejected_click_leaves_state_unchanged (s : GameState) (row col : Int) :
    (∀ s_next : GameState, applyMove s row col = some (s_next, false) →
      s_next.grid = s.grid ∧ s_next.counter = s.counter ∧
      s_next.last_clicked = s.last_clicked ∧ s_next.game_over = s.game_over) ∧
    (s.game_over = true → applyMove s row col = some (s, false)) ∧
    (¬ (0 ≤ row ∧ row < (s.grid_size_y : Int) ∧ 0 ≤ col ∧ col < (s.grid_size_x : Int)) →
      applyMove s row col = some (s, false)) ∧
    (is_valid_move s row col = some false → applyMove s row col = some (s, false)) := by
  refine ⟨?_, ?_, ?_, ?_⟩
  · intro s_next h
    rw [applyMove_rejected h]
    exact ⟨rfl, rfl, rfl, rfl⟩
  · intro hg
    simp [applyMove, hg]
  · intro hb
    by_cases hg : s.game_over <;> simp [applyMove, hg, hb]
  · intro hv
    by_cases hg : s.game_over
    · simp [applyMove, hg]
    · by_cases hb : 0 ≤ row ∧ row < (s.grid_size_y : Int) ∧ 0 ≤ col ∧
        col < (s.grid_size_x : Int) <;> simp [applyMove, hg, hb, hv]

/-- Witness for C3: a terminal state and an out-of-bounds click are
both rejected without change. -/
theorem rejected_click_leaves_state_unchanged_witness :
    applyMove finished1x1 0 0 = some (finished1x1, false) ∧
    applyMove freshDefault 100 100 = some (freshDefault, false) :=
  ⟨(rejected_click_leaves_state_unchanged finished1x1 0 0).2.1 rfl,
   (rejected_click_leaves_state_unchanged freshDefault 100 100).2.2.1 (by decide)⟩

/-! ### C8 -/

lemma is_valid_move_isSome (s : GameState) (row col : Int) (hwf : WFGrid s)
    (h1 : 0 ≤ row) (h2 : row < (s.grid_size_y : Int))
    (h3 : 0 ≤ col) (h4 : col < (s.grid_size_x : Int)) :
    (is_valid_move s row col).isSome = true := by
  cases hl : s.last_clicked with
  | none => simp [is_valid_move, hl]
  | some p =>
    obtain ⟨lr, lc⟩ := p
    rw [is_valid_move_inbounds s row col lr lc hl hwf h1 h2 h3 h4]
    rfl

/-- C8 (amended): the click handler built on the validator is total:
on a well-formed grid every integer position, including negative or
large coordinates, yields a result rather than an uncaught fault, and
every out-of-bounds position is rejected with the state unchanged.
The bare validator `is_valid_move` is NOT total over arbitrary
coordinates (see the counterexample); it is total only under the
bounds check `run` performs before calling it. -/
theorem click_handler_total (s : GameState) (row col : Int) (hwf : WFGrid s) :
    (applyMove s row col).isSome = true ∧
    (¬ (0 ≤ row ∧ row < (s.grid_size_y : Int) ∧ 0 ≤ col ∧ col < (s.grid_size_x : Int)) →
      applyMove s row col = some (s, false)) := by
  constructor
  · rcases applyMove_cases s row col with ⟨_, hEq⟩ | ⟨_, _, hEq⟩ | ⟨_, hb, hv, _⟩ |
      ⟨_, _, _, hEq⟩ | ⟨_, _, _, hEq⟩
    · rw [hEq]; rfl
    · rw [hEq]; rfl
    · have hs := is_valid_move_isSome s row col hwf hb.1 hb.2.1 hb.2.2.1 hb.2.2.2
      rw [hv] at hs
      exact absurd hs (by simp)
    · rw [hEq]; rfl
    · rw [hEq]; rfl
  · intro hb
    by_cases hg : s.game_over <;> simp [applyMove, hg, hb]

/-- C8 counterexample: with last click (9,0), the out-of-bounds
position (11,1) is at knight displacement and `is_valid_move` raises
IndexError (modelled as `none`) instead of returning a rejection; the
click handler stays total only because `run` checks bounds first. -/
theorem validator_not_total_cx :
    is_valid_move afterCornerClick 11 1 = none ∧
    applyMove afterCornerClick 11 1 = some (afterCornerClick, false) :=
  ⟨by decide, by decide⟩

/-- Witness for the amended C8 theorem at a concrete state. -/
theorem click_handler_total_witness :
    applyMove freshDefault (-5) 77 = some (freshDefault, false) :=
  (click_handler_total freshDefault (-5) 77 (by decide)).2 (by decide)

/-! ### C6 -/

/-- C6: the terminal flag is set by an accepted click exactly when
`has_valid_moves` is false on the updated state; a rejected click
never changes it; only `reset_game` produces a cleared flag. -/
theorem game_over_exactly_on_stuck_accept (s : GameState) (row col : Int)
    (s_next : GameState) (acc : Bool)
    (h : applyMove s row col = some (s_next, acc)) :
    (acc = true → (s_next.game_over = true ↔ has_valid_moves s_next = false)) ∧
    (acc = false → s_next.game_over = s.game_over) ∧
    (∀ gy gx : Nat, (reset_game gy gx).game_over = false) := by
  refine ⟨?_, ?_, fun gy gx => rfl⟩
  · rintro rfl
    have hf := (applyMove_accepted_fields h).2.2.2.2.2.2
    rw [hf]
    cases has_valid_moves s_next <;> simp
  · rintro rfl
    rw [applyMove_rejected h]

/-- Witness for C6: the accepted click that exhausts the 1x1 grid
sets the terminal flag. -/
theorem game_over_exactly_on_stuck_accept_witness :
    finished1x1.game_over = true ↔ has_valid_moves finished1x1 = false :=
  (game_over_exactly_on_stuck_accept (reset_game 1 1) 0 0 finished1x1 true
    (by decide)).1 rfl

/-! ### C5 -/

/-- C5: `has_valid_moves` is true iff `last_clicked` is `None` or
some in-bounds unvisited cell lies at absolute knight displacement
(2,1) or (1,2) from it; with no last click it is always true. -/
theorem has_valid_moves_iff (s : GameState) :
    (has_valid_moves s = true ↔
      (s.last_clicked = none ∨
        ∃ lr lc : Int, s.last_clicked = some (lr, lc) ∧
          ∃ i, i < s.grid_size_y ∧ ∃ j, j < s.grid_size_x ∧
            gridCell s.grid i j = 0 ∧
            ((((i : Int) - lr).natAbs = 2 ∧ ((j : Int) - lc).natAbs = 1) ∨
             (((i : Int) - lr).natAbs = 1 ∧ ((j : Int) - lc).natAbs = 2)))) ∧
    (s.last_clicked = none → has_valid_moves s = true) := by
  refine ⟨?_, fun hl => by simp [has_valid_moves, hl]⟩
  cases hl : s.last_clicked with
  | none => simp [has_valid_moves, hl]
  | some p =>
    obtain ⟨lr, lc⟩ := p
    simp only [has_valid_moves, hl, List.any_eq_true, List.mem_range,
      Bool.and_eq_true, beq_iff_eq, Option.some.injEq, Prod.mk.injEq,
      knightDiff, Bool.or_eq_true, reduceCtorEq, false_or]
    constructor
    · rintro ⟨i, hi, j, hj, hc, hk⟩
      exact ⟨lr, lc, ⟨rfl, rfl⟩, i, hi, j, hj, hc, hk⟩
    · rintro ⟨lr2, lc2, ⟨rfl, rfl⟩, i, hi, j, hj, hc, hk⟩
      exact ⟨i, hi, j, hj, hc, hk⟩

/-- Witness for C5 at a concrete state: a fresh grid has moves. -/
theorem has_valid_moves_iff_witness : has_valid_moves freshDefault = true :=
  (has_valid_moves_iff freshDefault).2 rfl

/-! ### C4 -/

lemma le_foldl_max (l : List Nat) (a : Nat) : a ≤ l.foldl max a := by
  induction l generalizing a with
  | nil => exact le_rfl
  | cons x xs ih =>
    simp only [List.foldl_cons]
    exact le_trans (Nat.le_max_left a x) (ih (max a x))

lemma foldl_max_le_of_mem {l : List Nat} {x : Nat} (a : Nat) (h : x ∈ l) :
    x ≤ l.foldl max a := by
  induction l generalizing a with
  | nil => cases h
  | cons y ys ih =>
    simp only [List.foldl_cons]
    rcases List.mem_cons.mp h with rfl | hmem
    · exact le_trans (Nat.le_max_right a x) (le_foldl_max ys (max a x))
    · exact ih (max a y) hmem

lemma foldl_max_mem (l : List Nat) (a : Nat) :
    l.foldl max a ∈ l ∨ l.foldl max a = a := by
  induction l generalizing a with
  | nil => exact Or.inr rfl
  | cons x xs ih =>
    simp only [List.foldl_cons]
    rcases ih (max a x) with hm | he
    · exact Or.inl (List.mem_cons_of_mem x hm)
    · rcases Nat.le_total a x with hax | hxa
      · refine Or.inl ?_
        rw [he, Nat.max_eq_right hax]
        exact List.mem_cons_self x xs
      · refine Or.inr ?_
        rw [he]
        exact Nat.max_eq_left hxa

lemma warnsdorffLoop_le (gy gx fuel : Nat) :
    ∀ (visited : List (Int × Int)) (pos : Int × Int),
      visited.length ≤ warnsdorffLoop gy gx fuel visited pos := by
  induction fuel with
  | zero => intro visited pos; exact le_rfl
  | succ fuel ih =>
    intro visited pos
    cases hn : get_valid_neighbors gy gx pos visited with
    | nil => simp only [warnsdorffLoop, hn]; exact le_rfl
    | cons n ns =>
      simp only [warnsdorffLoop, hn]
      exact le_trans (by simp) (ih _ _)

lemma warnsdorff_tour_pos (gy gx : Nat) (p : Int × Int) :
    1 ≤ warnsdorff_tour gy gx p :=
  warnsdorffLoop_le gy gx (gy * gx) [p] p

lemma mem_tour_starts (gy gx : Nat) (p : Int × Int) :
    p ∈ tour_starts gy gx ↔
      ∃ i : Nat, i < gy ∧ ∃ j : Nat, j < gx ∧ p = ((i : Int), (j : Int)) := by
  simp only [tour_starts]
  rw [List.mem_flatMap]
  constructor
  · rintro ⟨i, hi, hp2⟩
    rw [List.mem_map] at hp2
    obtain ⟨j, hj, rfl⟩ := hp2
    exact ⟨i, List.mem_range.mp hi, j, List.mem_range.mp hj, rfl⟩
  · rintro ⟨i, hi, j, hj, rfl⟩
    refine ⟨i, List.mem_range.mpr hi, ?_⟩
    rw [List.mem_map]
    exact ⟨j, List.mem_range.mpr hj, rfl⟩

lemma tour_starts_length (gy gx : Nat) : (tour_starts gy gx).length = gy * gx := by
  simp only [tour_starts, List.length_flatMap, Function.comp_def, List.length_map,
    List.length_range, List.map_const']
  rw [List.sum_replicate, smul_eq_mul]

lemma length_le_of_nodup_inbounds {gy gx : Nat} {l : List (Int × Int)} (hnd : l.Nodup)
    (hmem : ∀ p ∈ l, 0 ≤ p.1 ∧ p.1 < (gy : Int) ∧ 0 ≤ p.2 ∧ p.2 < (gx : Int)) :
    l.length ≤ gy * gx := by
  have hsub : l ⊆ tour_starts gy gx := by
    intro p hp
    obtain ⟨h1, h2, h3, h4⟩ := hmem p hp
    rw [mem_tour_starts]
    refine ⟨p.1.toNat, by omega, p.2.toNat, by omega, ?_⟩
    rw [Int.toNat_of_nonneg h1, Int.toNat_of_nonneg h3]
  have hle := (List.subperm_of_subset hnd hsub).length_le
  rwa [tour_starts_length] at hle

lemma minByKey_mem (f : Int × Int → Nat) (best : Int × Int) (l : List (Int × Int)) :
    minByKey f best l = best ∨ minByKey f best l ∈ l := by
  induction l generalizing best with
  | nil => exact Or.inl rfl
  | cons x xs ih =>
    simp only [minByKey]
    by_cases h : f x < f best
    · rw [if_pos h]
      rcases ih x with he | hm
      · exact Or.inr (by rw [he]; exact List.mem_cons_self x xs)
      · exact Or.inr (List.mem_cons_of_mem x hm)
    · rw [if_neg h]
      rcases ih best with he | hm
      · exact Or.inl he
      · exact Or.inr (List.mem_cons_of_mem x hm)

lemma mem_get_valid_neighbors {gy gx : Nat} {visited : List (Int × Int)}
    {pos p : Int × Int} (h : p ∈ get_valid_neighbors gy gx pos visited) :
    (0 ≤ p.1 ∧ p.1 < (gy : Int) ∧ 0 ≤ p.2 ∧ p.2 < (gx : Int)) ∧ p ∉ visited := by
  simp only [get_valid_neighbors, List.mem_filter, decide_eq_true_eq] at h
  exact ⟨⟨h.2.1, h.2.2.1, h.2.2.2.1, h.2.2.2.2.1⟩, h.2.2.2.2.2⟩

lemma warnsdorffLoop_fuel_succ (gy gx : Nat) :
    ∀ (fuel : Nat) (visited : List (Int × Int)) (pos : Int × Int),
      visited.Nodup →
      (∀ p ∈ visited, 0 ≤ p.1 ∧ p.1 < (gy : Int) ∧ 0 ≤ p.2 ∧ p.2 < (gx : Int)) →
      gy * gx + 1 ≤ fuel + visited.length →
      warnsdorffLoop gy gx (fuel + 1) visited pos =
        warnsdorffLoop gy gx fuel visited pos := by
  intro fuel
  induction fuel with
  | zero =>
    intro visited pos hnd hmem hfuel
    have := length_le_of_nodup_inbounds hnd hmem
    omega
  | succ fuel ih =>
    intro visited pos hnd hmem hfuel
    cases hn : get_valid_neighbors gy gx pos visited with
    | nil => simp only [warnsdorffLoop, hn]
    | cons n ns =>
      simp only [warnsdorffLoop, hn]
      set next := minByKey (fun x => (get_valid_neighbors gy gx x visited).length) n ns
        with hnext
      have hnmem : next ∈ get_valid_neighbors gy gx pos visited := by
        rw [hn, hnext]
        rcases minByKey_mem (fun x => (get_valid_neighbors gy gx x visited).length)
          n ns with he | hm
        · rw [he]
          exact List.mem_cons_self n ns
        · exact List.mem_cons_of_mem n hm
      obtain ⟨hin, hnotin⟩ := mem_get_valid_neighbors hnmem
      apply ih (next :: visited) next (List.nodup_cons.mpr ⟨hnotin, hnd⟩)
      · intro p hp
        rcases List.mem_cons.mp hp with rfl | hpmem
        · exact hin
        · exact hmem p hpmem
      · simp only [List.length_cons]
        omega

/-- The `gy * gx` fuel of `warnsdorff_tour` is enough to reach the
source loop's natural break: any larger fuel computes the same tour
length, so the fuelled loop is a faithful rendering of the unbounded
`while True` of src/main.py:56. -/
lemma warnsdorffLoop_fuel_irrelevant (gy gx extra : Nat) (start : Int × Int)
    (hin : 0 ≤ start.1 ∧ start.1 < (gy : Int) ∧ 0 ≤ start.2 ∧ start.2 < (gx : Int)) :
    warnsdorffLoop gy gx (gy * gx + extra) [start] start =
      warnsdorff_tour gy gx start := by
  induction extra with
  | zero => rfl
  | succ extra ih =>
    rw [← ih]
    exact warnsdorffLoop_fuel_succ gy gx (gy * gx + extra) [start] start
      (List.nodup_singleton start)
      (by
        intro p hp
        rw [List.mem_singleton] at hp
        rw [hp]
        exact hin)
      (by simp only [List.length_singleton]; omega)

/-- C4: `calculate_max_moves` equals the maximum over all starting
cells (all pairs (i,j) with i < rows, j < cols) of the length of the
Warnsdorff tour from that start, and on a 1x2 grid it returns 1. -/
theorem calculate_max_moves_is_max_tour (gy gx : Nat) (hy : 1 ≤ gy) (hx : 1 ≤ gx) :
    (∀ p : Int × Int, p ∈ tour_starts gy gx ↔
      ∃ i : Nat, i < gy ∧ ∃ j : Nat, j < gx ∧ p = ((i : Int), (j : Int))) ∧
    (∀ p ∈ tour_starts gy gx,
      warnsdorff_tour gy gx p ≤ calculate_max_moves gy gx) ∧
    (∃ p ∈ tour_starts gy gx,
      warnsdorff_tour gy gx p = calculate_max_moves gy gx) ∧
    calculate_max_moves 1 2 = 1 := by
  have hmem := mem_tour_starts gy gx
  refine ⟨hmem, ?_, ?_, by decide⟩
  · intro p hp
    simp only [calculate_max_moves]
    exact foldl_max_le_of_mem 0 (List.mem_map_of_mem _ hp)
  · simp only [calculate_max_moves]
    rcases foldl_max_mem ((tour_starts gy gx).map (warnsdorff_tour gy gx)) 0 with hm | h0
    · rcases List.mem_map.mp hm with ⟨p, hp, hpe⟩
      exact ⟨p, hp, hpe⟩
    · have h00 : ((0 : Int), (0 : Int)) ∈ tour_starts gy gx :=
        (hmem _).mpr ⟨0, hy, 0, hx, rfl⟩
      have hle := foldl_max_le_of_mem 0
        (List.mem_map_of_mem (warnsdorff_tour gy gx) h00)
      have h1 := warnsdorff_tour_pos gy gx (0, 0)
      rw [h0] at hle
      omega

/-- Witness for C4 on the source's default 10x5 grid dimensions. -/
theorem calculate_max_moves_is_max_tour_witness :
    ∃ p ∈ tour_starts 2 2, warnsdorff_tour 2 2 p = calculate_max_moves 2 2 :=
  (calculate_max_moves_is_max_tour 2 2 (by decide) (by decide)).2.2.1

/-! ### Grid update lemmas and the reachable-state invariant -/

lemma set_getD_self {α : Type} (l : List α) (b : Nat) (v d : α) (hb : b < l.length) :
    (l.set b v).getD b d = v := by
  rw [List.getD_eq_getElem _ _ (by rw [List.length_set]; exact hb)]
  exact List.getElem_set_self _

lemma set_getD_ne {α : Type} (l : List α) (b : Nat) (v d : α) {j : Nat} (h : j ≠ b) :
    (l.set b v).getD j d = l.getD j d := by
  rw [List.getD_eq_getD_get?, List.getD_eq_getD_get?, List.get?_eq_getElem?,
    List.get?_eq_getElem?, List.getElem?_set_ne (fun hc => h hc.symm)]

lemma setCell_getD_row_eq (g : List (List Nat)) (a b v : Nat) (ha : a < g.length) :
    (setCell g a b v).getD a [] = (g.getD a []).set b v :=
  set_getD_self g a _ [] ha

lemma setCell_getD_row_ne (g : List (List Nat)) (a b v : Nat) {i : Nat} (h : i ≠ a) :
    (setCell g a b v).getD i [] = g.getD i [] :=
  set_getD_ne g a _ [] h

/-- Writing cell (a,b) changes exactly that cell. -/
lemma gridCell_setCell (g : List (List Nat)) (a b v : Nat)
    (ha : a < g.length) (hb : b < (g.getD a []).length) (i j : Nat) :
    gridCell (setCell g a b v) i j =
      if i = a ∧ j = b then v else gridCell g i j := by
  by_cases hia : i = a
  · subst hia
    unfold gridCell
    rw [setCell_getD_row_eq g i b v ha]
    by_cases hjb : j = b
    · subst hjb
      rw [if_pos ⟨rfl, rfl⟩]
      exact set_getD_self _ _ _ _ hb
    · rw [if_neg (fun hc => hjb hc.2)]
      exact set_getD_ne _ _ _ _ hjb
  · rw [if_neg (fun hc => hia hc.1)]
    unfold gridCell
    rw [setCell_getD_row_ne g a b v hia]

lemma gridCell_replicate (gy gx i j : Nat) :
    gridCell (List.replicate gy (List.replicate gx 0)) i j = 0 := by
  unfold gridCell
  by_cases hi : i < gy
  · have houter : (List.replicate gy (List.replicate gx 0)).getD i [] =
        List.replicate gx 0 := by
      rw [List.getD_eq_getElem _ _ (by simpa using hi)]
      exact List.getElem_replicate _ _
    rw [houter]
    by_cases hj : j < gx
    · rw [List.getD_eq_getElem _ _ (by simpa using hj)]
      exact List.getElem_replicate _ _
    · exact List.getD_eq_default _ _ (by simpa using Nat.le_of_not_lt hj)
  · have houter : (List.replicate gy (List.replicate gx 0)).getD i [] = [] :=
      List.getD_eq_default _ _ (by simpa using Nat.le_of_not_lt hi)
    rw [houter]
    rfl

/-- The invariant maintained by every reachable state: well-formed
grid, positive counter, the positive cell values are exactly
1..counter-1 (each in exactly one cell), a recorded last click is in
bounds and holds counter-1, a fresh state has counter 1, and the
cached estimate matches the dimensions. -/
def Inv (s : GameState) : Prop :=
  WFGrid s ∧
  1 ≤ s.counter ∧
  (∀ v : Nat, 0 < v →
    (v < s.counter ↔ ∃ i : Nat, i < s.grid_size_y ∧ ∃ j : Nat, j < s.grid_size_x ∧
      gridCell s.grid i j = v)) ∧
  (∀ v i j i2 j2 : Nat, 0 < v → i < s.grid_size_y → j < s.grid_size_x →
    i2 < s.grid_size_y → j2 < s.grid_size_x →
    gridCell s.grid i j = v → gridCell s.grid i2 j2 = v → i = i2 ∧ j = j2) ∧
  (s.last_clicked = none → s.counter = 1) ∧
  (∀ lr lc : Int, s.last_clicked = some (lr, lc) →
    0 ≤ lr ∧ lr < (s.grid_size_y : Int) ∧ 0 ≤ lc ∧ lc < (s.grid_size_x : Int) ∧
    gridCell s.grid lr.toNat lc.toNat = s.counter - 1) ∧
  s.max_possible_moves = calculate_max_moves s.grid_size_y s.grid_size_x

lemma Inv_reset (gy gx : Nat) : Inv (reset_game gy gx) := by
  unfold Inv WFGrid reset_game
  dsimp only
  refine ⟨⟨List.length_replicate gy _, ?_⟩, le_rfl, ?_, ?_, fun _ => rfl, ?_, rfl⟩
  · intro r hr
    rw [List.eq_of_mem_replicate hr]
    exact List.length_replicate gx 0
  · intro v hv
    constructor
    · intro h
      omega
    · rintro ⟨i, _, j, _, hc⟩
      rw [gridCell_replicate] at hc
      omega
  · intro v i j i2 j2 hv _ _ _ _ hc _
    rw [gridCell_replicate] at hc
    omega
  · intro lr lc h
    exact absurd h (by simp)

/-- An accepted click preserves the invariant and increments the
counter. -/
lemma Inv_accept {s s_next : GameState} {row col : Int}
    (hm : applyMove s row col = some (s_next, true)) (hinv : Inv s) :
    Inv s_next ∧ s_next.counter = s.counter + 1 := by
  obtain ⟨hwf, hc1, hiff, huniq, hnone, _, hmax⟩ := hinv
  obtain ⟨_, hb, hv, _⟩ := applyMove_accepted hm
  obtain ⟨hgrid, hcnt, hlast, hgx, hgy, hmx, _⟩ := applyMove_accepted_fields hm
  obtain ⟨hb1, hb2, hb3, hb4⟩ := hb
  have hagy : row.toNat < s.grid_size_y := by omega
  have hbgx : col.toNat < s.grid_size_x := by omega
  have halen : row.toNat < s.grid.length := by rw [hwf.1]; exact hagy
  have hblen : col.toNat < (s.grid.getD row.toNat []).length := by
    rw [grid_row_length hwf halen]; exact hbgx
  have hold : gridCell s.grid row.toNat col.toNat = 0 := by
    cases hl : s.last_clicked with
    | none =>
      by_contra hne
      have hpos : 0 < gridCell s.grid row.toNat col.toNat := Nat.pos_of_ne_zero hne
      have hlt := (hiff _ hpos).mpr ⟨row.toNat, hagy, col.toNat, hbgx, rfl⟩
      have h1 := hnone hl
      omega
    | some p =>
      obtain ⟨lr, lc⟩ := p
      rw [is_valid_move_inbounds s row col lr lc hl hwf hb1 hb2 hb3 hb4] at hv
      have hband := Option.some.inj hv
      rw [Bool.and_eq_true] at hband
      exact beq_iff_eq.mp hband.2
  have hcell : ∀ i j : Nat, gridCell s_next.grid i j =
      if i = row.toNat ∧ j = col.toNat then s.counter else gridCell s.grid i j := by
    intro i j
    rw [hgrid]
    exact gridCell_setCell s.grid row.toNat col.toNat s.counter halen hblen i j
  have hwf2 : WFGrid s_next := by
    constructor
    · rw [hgrid, hgy]
      unfold setCell
      rw [List.length_set]
      exact hwf.1
    · intro r hr
      rw [hgx]
      rw [hgrid] at hr
      unfold setCell at hr
      rcases List.mem_or_eq_of_mem_set hr with hmem | heq
      · exact hwf.2 r hmem
      · rw [heq, List.length_set]
        exact grid_row_length hwf halen
  refine ⟨⟨hwf2, ?_, ?_, ?_, ?_, ?_, ?_⟩, hcnt⟩
  · rw [hcnt]
    omega
  · intro v hvpos
    rw [hcnt, hgy, hgx]
    constructor
    · intro hlt
      rcases Nat.lt_succ_iff_lt_or_eq.mp hlt with hvc | hvc
      · obtain ⟨i, hi, j, hj, hcell0⟩ := (hiff v hvpos).mp hvc
        refine ⟨i, hi, j, hj, ?_⟩
        rw [hcell i j, if_neg ?_]
        · exact hcell0
        · rintro ⟨rfl, rfl⟩
          rw [hold] at hcell0
          omega
      · refine ⟨row.toNat, hagy, col.toNat, hbgx, ?_⟩
        rw [hcell row.toNat col.toNat, if_pos ⟨rfl, rfl⟩, hvc]
    · rintro ⟨i, hi, j, hj, hcv⟩
      rw [hcell i j] at hcv
      by_cases hab : i = row.toNat ∧ j = col.toNat
      · rw [if_pos hab] at hcv
        omega
      · rw [if_neg hab] at hcv
        have := (hiff v hvpos).mpr ⟨i, hi, j, hj, hcv⟩
        omega
  · intro v i j i2 j2 hvpos hi hj hi2 hj2 hcv hcv2
    rw [hgy] at hi hi2
    rw [hgx] at hj hj2
    rw [hcell i j] at hcv
    rw [hcell i2 j2] at hcv2
    by_cases hab : i = row.toNat ∧ j = col.toNat
    · rw [if_pos hab] at hcv
      by_cases hab2 : i2 = row.toNat ∧ j2 = col.toNat
      · exact ⟨hab.1.trans hab2.1.symm, hab.2.trans hab2.2.symm⟩
      · rw [if_neg hab2] at hcv2
        have := (hiff v hvpos).mpr ⟨i2, hi2, j2, hj2, hcv2⟩
        omega
    · rw [if_neg hab] at hcv
      by_cases hab2 : i2 = row.toNat ∧ j2 = col.toNat
      · rw [if_pos hab2] at hcv2
        have := (hiff v hvpos).mpr ⟨i, hi, j, hj, hcv⟩
        omega
      · rw [if_neg hab2] at hcv2
        exact huniq v i j i2 j2 hvpos hi hj hi2 hj2 hcv hcv2
  · intro h
    rw [hlast] at h
    exact absurd h (by simp)
  · intro lr lc h
    rw [hlast] at h
    obtain ⟨h1, h2⟩ := (Prod.mk.injEq ..).mp (Option.some.inj h)
    subst h1
    subst h2
    refine ⟨hb1, by rw [hgy]; exact hb2, hb3, by rw [hgx]; exact hb4, ?_⟩
    rw [hcnt, hcell row.toNat col.toNat, if_pos ⟨rfl, rfl⟩]
    omega
  · rw [hmx, hgy, hgx]
    exact hmax

/-- Every reachable state satisfies the invariant, and its counter is
the number of accepted moves plus one. -/
lemma reaches_inv {k : Nat} {s : GameState} (h : Reaches k s) :
    Inv s ∧ s.counter = k + 1 := by
  induction h with
  | init gy gx hy hx => exact ⟨Inv_reset gy gx, rfl⟩
  | accept row col hR hm ih =>
    obtain ⟨hinv, hcnt⟩ := ih
    obtain ⟨hinv2, hcnt2⟩ := Inv_accept hm hinv
    exact ⟨hinv2, by rw [hcnt2, hcnt]⟩
  | reject row col hR hm ih =>
    rw [applyMove_rejected hm]
    exact ih

/-! ### C7 -/

/-- C7: the counter increments by exactly 1 on every accepted click
and is unchanged on every rejected click, and in every reachable
state with k accepted moves the positive cell values are exactly the
set 1..k, each value sitting in exactly one cell. -/
theorem counter_and_cell_values :
    (∀ (s : GameState) (row col : Int) (s_next : GameState) (acc : Bool),
      applyMove s row col = some (s_next, acc) →
      s_next.counter = if acc then s.counter + 1 else s.counter) ∧
    (∀ (k : Nat) (s : GameState), Reaches k s →
      s.counter = k + 1 ∧
      ∀ v : Nat, 0 < v →
        ((v ≤ k ↔ ∃ i : Nat, i < s.grid_size_y ∧ ∃ j : Nat, j < s.grid_size_x ∧
            gridCell s.grid i j = v) ∧
         (∀ i j i2 j2 : Nat, i < s.grid_size_y → j < s.grid_size_x →
            i2 < s.grid_size_y → j2 < s.grid_size_x →
            gridCell s.grid i j = v → gridCell s.grid i2 j2 = v →
            i = i2 ∧ j = j2))) := by
  constructor
  · intro s row col s_next acc h
    cases acc
    · rw [applyMove_rejected h]
      rfl
    · rw [(applyMove_accepted_fields h).2.1]
      rfl
  · intro k s hR
    obtain ⟨⟨_, _, hiff, huniq, _, _, _⟩, hcnt⟩ := reaches_inv hR
    refine ⟨hcnt, fun v hv => ⟨?_, fun i j i2 j2 => huniq v i j i2 j2 hv⟩⟩
    rw [← hiff v hv, hcnt]
    omega

/-- Witness for C7: after zero accepted moves the counter is 1, and
the accepted click on the 1x1 grid increments it to 2. -/
theorem counter_and_cell_values_witness :
    (reset_game 2 2).counter = 0 + 1 ∧
    finished1x1.counter = (reset_game 1 1).counter + 1 :=
  ⟨(counter_and_cell_values.2 0 (reset_game 2 2)
      (Reaches.init 2 2 (by decide) (by decide))).1,
   counter_and_cell_values.1 (reset_game 1 1) 0 0 finished1x1 true (by decide)⟩

/-! ### C9 -/

/-- C9: `reset_game` yields an all-zero grid, counter 1, no last
click, a cleared terminal flag, and the Warnsdorff estimate for the
dimensions; resetting any reachable state with unchanged dimensions
reproduces the very same estimate it already carried. -/
theorem reset_game_spec (gy gx : Nat) :
    (∀ i j : Nat, gridCell (reset_game gy gx).grid i j = 0) ∧
    (reset_game gy gx).counter = 1 ∧
    (reset_game gy gx).last_clicked = none ∧
    (reset_game gy gx).game_over = false ∧
    (reset_game gy gx).max_possible_moves = calculate_max_moves gy gx ∧
    (∀ (k : Nat) (s : GameState), Reaches k s →
      (reset_game s.grid_size_y s.grid_size_x).max_possible_moves =
        s.max_possible_moves) := by
  refine ⟨fun i j => gridCell_replicate gy gx i j, rfl, rfl, rfl, rfl, ?_⟩
  intro k s hR
  obtain ⟨⟨_, _, _, _, _, _, hmax⟩, _⟩ := reaches_inv hR
  exact hmax.symm

/-- Witness for C9: resetting the freshly reset 1x1 game reuses its
estimate. -/
theorem reset_game_spec_witness :
    (reset_game (reset_game 1 1).grid_size_y
        (reset_game 1 1).grid_size_x).max_possible_moves =
      (reset_game 1 1).max_possible_moves :=
  (reset_game_spec 1 1).2.2.2.2.2 0 (reset_game 1 1)
    (Reaches.init 1 1 le_rfl le_rfl)

/-! ### C10 -/

/-- C10: in every reachable state a recorded last click names an
in-bounds cell holding counter - 1, which is the largest value on the
grid; immediately after a reset the last click is cleared and the
counter is 1. -/
theorem last_clicked_names_latest_cell :
    (∀ (k : Nat) (s : GameState), Reaches k s →
      ∀ lr lc : Int, s.last_clicked = some (lr, lc) →
        0 ≤ lr ∧ lr < (s.grid_size_y : Int) ∧ 0 ≤ lc ∧ lc < (s.grid_size_x : Int) ∧
        gridCell s.grid lr.toNat lc.toNat = s.counter - 1 ∧
        (∀ i j : Nat, i < s.grid_size_y → j < s.grid_size_x →
          gridCell s.grid i j ≤ s.counter - 1)) ∧
    (∀ gy gx : Nat, (reset_game gy gx).last_clicked = none ∧
      (reset_game gy gx).counter = 1) := by
  refine ⟨?_, fun gy gx => ⟨rfl, rfl⟩⟩
  intro k s hR lr lc hl
  obtain ⟨⟨_, hc1, hiff, _, _, hsome, _⟩, _⟩ := reaches_inv hR
  obtain ⟨h1, h2, h3, h4, h5⟩ := hsome lr lc hl
  refine ⟨h1, h2, h3, h4, h5, ?_⟩
  intro i j hi hj
  by_cases h0 : gridCell s.grid i j = 0
  · rw [h0]
    exact Nat.zero_le _
  · have hpos : 0 < gridCell s.grid i j := Nat.pos_of_ne_zero h0
    have := (hiff _ hpos).mpr ⟨i, hi, j, hj, rfl⟩
    omega

/-- Witness for C10: in the finished 1x1 game the last click (0,0)
holds counter - 1 = 1. -/
theorem last_clicked_names_latest_cell_witness :
    gridCell finished1x1.grid 0 0 = finished1x1.counter - 1 :=
  ((last_clicked_names_latest_cell.1 1 finished1x1
      (Reaches.accept 0 0 (Reaches.init 1 1 le_rfl le_rfl) (by decide))
      0 0 rfl)).2.2.2.2.1

end GridGame
